import Mathlib

/-!
Verification development for `laminage/hec/base.py` (class `BaseManager`).

The Python module is a filesystem-staging orchestrator: it partitions a pool
of `.dss` scenario files into chunks of 100, stages each chunk into a copied
model-base directory (renumbering the files), invokes an external executable
through wine, and extracts results.

We embed the relevant functions shallowly:
* file names and paths are `List Char`;
* Python `"{:0Nd}".format`, `str.split`, `str.replace`, `sorted`,
  `os.path.join` are modelled by executable Lean functions below;
* fallible operations (`list[i]`, `os.makedirs`) live in `Except PyErr`;
* observable side effects (file copies, process invocations, prints) are
  collected in a trace of `Effect`s.
-/

/-- Value of one decimal digit rendered as a character (`'0'`..`'9'`). -/
def digitCh : Nat → Char
  | 0 => '0' | 1 => '1' | 2 => '2' | 3 => '3' | 4 => '4'
  | 5 => '5' | 6 => '6' | 7 => '7' | 8 => '8' | _ => '9'

/-- Big-endian decimal digits of `n`, with `fuel` bounding the recursion
(`fuel ≥ n` suffices); returns `[]` for `n = 0`. -/
def decDigitsAux : Nat → Nat → List Nat
  | 0, _ => []
  | fuel + 1, n => if n = 0 then [] else decDigitsAux fuel (n / 10) ++ [n % 10]

/-- Big-endian decimal digits of `n`, as Python's `repr` ( `0 ↦ [0]` ). -/
def decDigits (n : Nat) : List Nat :=
  if n = 0 then [0] else decDigitsAux n n

/-- Model of Python `"{:0wd}".format(n)` for a natural `n`: the decimal
digits of `n`, left-padded with `'0'` to width `w`. -/
def pyFormatNat (w : Nat) (n : Nat) : List Char :=
  List.replicate (w - (decDigits n).length) '0' ++ (decDigits n).map digitCh

/-- Model of Python `"{:0wd}".format(n)` for an integer `n` (a negative
number gets a leading `'-'` inside the padded width, as in Python). -/
def pyFormatInt (w : Nat) (n : Int) : List Char :=
  if n < 0 then
    '-' :: (List.replicate (w - 1 - (decDigits n.natAbs).length) '0'
              ++ (decDigits n.natAbs).map digitCh)
  else pyFormatNat w n.toNat

/-- Numeric value of a string of decimal digit characters (inverse of
`pyFormatNat w`, used to prove the formatting injective). -/
def digitsVal (cs : List Char) : Nat :=
  cs.foldl (fun a c => a * 10 + (c.toNat - 48)) 0

theorem digitCh_val {d : Nat} (h : d < 10) : (digitCh d).toNat - 48 = d := by
  interval_cases d <;> rfl

theorem decDigitsAux_lt {fuel n : Nat} {d : Nat}
    (hd : d ∈ decDigitsAux fuel n) : d < 10 := by
  induction fuel generalizing n with
  | zero => simp [decDigitsAux] at hd
  | succ fuel ih =>
    by_cases h0 : n = 0
    · simp [decDigitsAux, h0] at hd
    · simp only [decDigitsAux, h0, if_false, List.mem_append,
        List.mem_singleton] at hd
      rcases hd with hd | hd
      · exact ih hd
      · subst hd; exact Nat.mod_lt _ (by norm_num)

theorem decDigitsAux_foldl {fuel n : Nat} (hfn : n ≤ fuel) (a : Nat) :
    List.foldl (fun acc d => acc * 10 + d) a (decDigitsAux fuel n)
      = a * 10 ^ (decDigitsAux fuel n).length + n := by
  induction fuel generalizing n a with
  | zero =>
    have : n = 0 := Nat.le_zero.mp hfn
    subst this; simp [decDigitsAux]
  | succ fuel ih =>
    by_cases h0 : n = 0
    · subst h0; simp [decDigitsAux]
    · have hdiv : n / 10 ≤ fuel := by
        have := Nat.div_lt_self (Nat.pos_of_ne_zero h0) (by norm_num : 1 < 10)
        omega
      simp only [decDigitsAux, h0, if_false, List.foldl_append, List.foldl_cons,
        List.foldl_nil, List.length_append, List.length_singleton]
      rw [ih hdiv]
      rw [pow_succ, ← mul_assoc]
      omega

theorem decDigits_foldl (n : Nat) :
    List.foldl (fun acc d => acc * 10 + d) 0 (decDigits n) = n := by
  by_cases h0 : n = 0
  · subst h0; simp [decDigits]
  · simp only [decDigits, h0, if_false]
    rw [decDigitsAux_foldl (Nat.le_refl n)]
    simp

theorem decDigits_lt {n d : Nat} (hd : d ∈ decDigits n) : d < 10 := by
  by_cases h0 : n = 0
  · subst h0; simp [decDigits] at hd; omega
  · simp only [decDigits, h0, if_false] at hd
    exact decDigitsAux_lt hd

theorem decDigitsAux_length_le {fuel n w : Nat} (hfn : n ≤ fuel)
    (hw : n < 10 ^ w) : (decDigitsAux fuel n).length ≤ w := by
  induction fuel generalizing n w with
  | zero =>
    have : n = 0 := Nat.le_zero.mp hfn
    subst this; simp [decDigitsAux]
  | succ fuel ih =>
    by_cases h0 : n = 0
    · simp [decDigitsAux, h0]
    · have hwpos : w ≠ 0 := by
        rintro rfl
        simp only [pow_zero] at hw
        omega
      obtain ⟨v, rfl⟩ : ∃ v, w = v + 1 := ⟨w - 1, by omega⟩
      have hdivfuel : n / 10 ≤ fuel := by
        have := Nat.div_lt_self (Nat.pos_of_ne_zero h0) (by norm_num : 1 < 10)
        omega
      have hdivlt : n / 10 < 10 ^ v := by
        rw [Nat.div_lt_iff_lt_mul (by norm_num : 0 < 10)]
        calc n < 10 ^ (v + 1) := hw
          _ = 10 ^ v * 10 := by rw [pow_succ]
      simp only [decDigitsAux, h0, if_false, List.length_append,
        List.length_singleton]
      have := ih hdivfuel hdivlt
      omega

theorem decDigits_length_le {n w : Nat} (hw : n < 10 ^ w) (hw1 : 1 ≤ w) :
    (decDigits n).length ≤ w := by
  by_cases h0 : n = 0
  · subst h0; simp [decDigits]; omega
  · simp only [decDigits, h0, if_false]
    exact decDigitsAux_length_le (Nat.le_refl n) hw

theorem foldl_digitCh (ds : List Nat) (a : Nat) (h : ∀ d ∈ ds, d < 10) :
    List.foldl (fun acc c => acc * 10 + (c.toNat - 48)) a (ds.map digitCh)
      = List.foldl (fun acc d => acc * 10 + d) a ds := by
  induction ds generalizing a with
  | nil => rfl
  | cons d t ih =>
    simp only [List.map_cons, List.foldl_cons]
    rw [digitCh_val (h d (List.mem_cons_self d t))]
    exact ih _ (fun x hx => h x (List.mem_cons_of_mem _ hx))

theorem foldl_zero_replicate (m : Nat) :
    List.foldl (fun acc c => acc * 10 + (c.toNat - 48)) 0
      (List.replicate m '0') = 0 := by
  induction m with
  | zero => rfl
  | succ m ih => simpa [List.replicate_succ] using ih

theorem digitsVal_pyFormatNat (w n : Nat) : digitsVal (pyFormatNat w n) = n := by
  unfold digitsVal pyFormatNat
  rw [List.foldl_append, foldl_zero_replicate,
    foldl_digitCh _ _ (fun d hd => decDigits_lt hd), decDigits_foldl]

theorem pyFormatNat_injective (w : Nat) {m n : Nat}
    (h : pyFormatNat w m = pyFormatNat w n) : m = n := by
  have := digitsVal_pyFormatNat w m
  rw [h, digitsVal_pyFormatNat] at this
  omega

theorem pyFormatNat_length {w n : Nat} (hn : n < 10 ^ w) (hw : 1 ≤ w) :
    (pyFormatNat w n).length = w := by
  unfold pyFormatNat
  rw [List.length_append, List.length_replicate, List.length_map]
  have := decDigits_length_le hn hw
  omega

theorem pyFormatNat_digits {w n : Nat} {c : Char} (hc : c ∈ pyFormatNat w n) :
    48 ≤ c.toNat ∧ c.toNat ≤ 57 := by
  unfold pyFormatNat at hc
  rw [List.mem_append] at hc
  rcases hc with hc | hc
  · rw [List.mem_replicate] at hc
    rcases hc with ⟨-, rfl⟩
    exact ⟨by decide, by decide⟩
  · rw [List.mem_map] at hc
    obtain ⟨d, hd, rfl⟩ := hc
    have := decDigits_lt hd
    interval_cases d <;> exact ⟨by decide, by decide⟩

/-- Does `s` begin with `pre`? (model of Python `str.startswith`). -/
def beginsWith : List Char → List Char → Bool
  | [], _ => true
  | _ :: _, [] => false
  | p :: ps, c :: cs => p == c && beginsWith ps cs

/-- First occurrence of `sep` in `s`: `some (before, after)` where
`s = before ++ sep ++ after` and `before` has no occurrence, else `none`. -/
def splitFirst (sep : List Char) : List Char → Option (List Char × List Char)
  | [] => none
  | c :: cs =>
    if beginsWith sep (c :: cs) then some ([], (c :: cs).drop sep.length)
    else
      match splitFirst sep cs with
      | none => none
      | some (b, a) => some (c :: b, a)

/-- Fuelled worker for `listSplitOn`. -/
def splitOnFuel (sep : List Char) : Nat → List Char → List (List Char)
  | 0, s => [s]
  | fuel + 1, s =>
    match splitFirst sep s with
    | none => [s]
    | some (b, a) => b :: splitOnFuel sep fuel a

/-- Model of Python `s.split(sep)` for non-empty `sep`. -/
def listSplitOn (sep s : List Char) : List (List Char) :=
  splitOnFuel sep s.length s

/-- `sep` occurs as a contiguous substring of `s`. -/
def hasSubstr (sep s : List Char) : Prop := ∃ a b, s = a ++ sep ++ b

theorem beginsWith_iff (pre s : List Char) :
    beginsWith pre s = true ↔ ∃ r, s = pre ++ r := by
  induction pre generalizing s with
  | nil => simp [beginsWith]
  | cons p ps ih =>
    cases s with
    | nil =>
      simp only [beginsWith, Bool.false_eq_true, false_iff]
      rintro ⟨r, hr⟩
      exact List.cons_ne_nil _ _ hr.symm
    | cons c cs =>
      simp only [beginsWith, Bool.and_eq_true, beq_iff_eq, ih]
      constructor
      · rintro ⟨rfl, r, rfl⟩
        exact ⟨r, rfl⟩
      · rintro ⟨r, hr⟩
        rw [List.cons_append] at hr
        obtain ⟨rfl, rfl⟩ : p = c ∧ cs = ps ++ r := by
          have h1 := congrArg (List.headD · ' ') hr
          have h2 := congrArg List.tail hr
          simp at h1 h2
          exact ⟨h1.symm, h2⟩
        exact ⟨rfl, r, rfl⟩

theorem splitFirst_eq_none_iff {sep : List Char} (hsep : sep ≠ [])
    (s : List Char) : splitFirst sep s = none ↔ ¬ hasSubstr sep s := by
  induction s with
  | nil =>
    simp only [splitFirst, true_iff]
    rintro ⟨a, b, hab⟩
    rcases a with _ | ⟨x, xs⟩
    · rcases sep with _ | ⟨y, ys⟩
      · exact hsep rfl
      · simp at hab
    · simp at hab
  | cons c cs ih =>
    by_cases hb : beginsWith sep (c :: cs) = true
    · simp only [splitFirst, hb, if_true]
      obtain ⟨r, hr⟩ := (beginsWith_iff sep (c :: cs)).mp hb
      simp only [false_iff, not_not, reduceCtorEq]
      exact ⟨[], r, by simpa using hr⟩
    · simp only [splitFirst, hb, if_false]
      have key : hasSubstr sep (c :: cs) ↔ hasSubstr sep cs := by
        constructor
        · rintro ⟨a, b, hab⟩
          rcases a with _ | ⟨x, xs⟩
          · exact absurd ((beginsWith_iff sep (c :: cs)).mpr
              ⟨b, by simpa using hab⟩) hb
          · rw [List.cons_append, List.cons_append] at hab
            obtain ⟨-, h2⟩ := List.cons.inj hab
            exact ⟨xs, b, by simpa using h2⟩
        · rintro ⟨a, b, hab⟩
          exact ⟨c :: a, b, by simp [hab]⟩
      rw [← key] at ih
      cases hsf : splitFirst sep cs with
      | none => simpa [hsf] using ih
      | some p =>
        rcases p with ⟨b, a⟩
        constructor
        · intro h
          simp at h
        · intro hno
          exact absurd (ih.mpr hno) (by simp [hsf])

theorem splitOnFuel_ne_nil (sep : List Char) (fuel : Nat) (s : List Char) :
    splitOnFuel sep fuel s ≠ [] := by
  cases fuel with
  | zero => simp [splitOnFuel]
  | succ fuel =>
    simp only [splitOnFuel]
    cases splitFirst sep s with
    | none => simp
    | some p => simp

theorem listSplitOn_of_none {sep s : List Char}
    (h : splitFirst sep s = none) : listSplitOn sep s = [s] := by
  unfold listSplitOn
  cases hl : s.length with
  | zero => rfl
  | succ m => simp [splitOnFuel, h]

theorem listSplitOn_of_some {sep s : List Char} {p : List Char × List Char}
    (h : splitFirst sep s = some p) :
    2 ≤ (listSplitOn sep s).length := by
  have hs : s ≠ [] := by
    rintro rfl
    simp [splitFirst] at h
  unfold listSplitOn
  cases hl : s.length with
  | zero => exact absurd (List.length_eq_zero.mp hl) hs
  | succ m =>
    simp only [splitOnFuel, h]
    have := splitOnFuel_ne_nil sep m p.2
    cases hmm : splitOnFuel sep m p.2 with
    | nil => exact absurd hmm this
    | cons x xs => simp

/-- Model of `os.path.join(a, b)` for a relative second component. -/
def pathJoin (a b : List Char) : List Char := a ++ '/' :: b

/-- Model of Python `s.replace(old, new)` for non-empty `old`. -/
def pyReplace (s old new : List Char) : List Char :=
  List.intercalate new (listSplitOn old s)

/-- Lexicographic (code-point) order on strings, as used by Python `sorted`. -/
def lexLe : List Char → List Char → Bool
  | [], _ => true
  | _ :: _, [] => false
  | a :: as, b :: bs =>
    if a.toNat < b.toNat then true
    else if b.toNat < a.toNat then false
    else lexLe as bs

/-- Insert into a sorted list (worker for `pySorted`). -/
def insertSorted (x : List Char) : List (List Char) → List (List Char)
  | [] => [x]
  | y :: ys => if lexLe x y then x :: y :: ys else y :: insertSorted x ys

/-- Model of Python `sorted` on a list of strings (ascending insertion sort). -/
def pySorted (l : List (List Char)) : List (List Char) := l.foldr insertSorted []

theorem length_insertSorted (x : List Char) (l : List (List Char)) :
    (insertSorted x l).length = l.length + 1 := by
  induction l with
  | nil => rfl
  | cons y ys ih =>
    simp only [insertSorted]
    by_cases h : lexLe x y
    · simp [h]
    · simp [h, ih]

theorem length_pySorted (l : List (List Char)) :
    (pySorted l).length = l.length := by
  induction l with
  | nil => rfl
  | cons x xs ih =>
    simp only [pySorted, List.foldr_cons] at *
    rw [length_insertSorted, ih]
    simp

/-- Python exceptions relevant to this module: `IndexError` from `list[i]`,
and `OSError` (carrying `errno`) from `os.makedirs`. -/
inductive PyErr where
  | indexError : PyErr
  | osError (errnoVal : Nat) : PyErr
deriving DecidableEq

/-- One observable side effect of the staging pipeline, in program order. -/
inductive Effect where
  | copyTree (src dst : List Char)
  | removeFile (path : List Char)
  | copyDss (srcIndex : Int) (dst : List Char)
  | copyFile (src dst : List Char)
  | readDss (alternative_basename : List Char) (reservoir_id : List Char)
      (base_dir : List Char) (start_date : List Char) (end_date : List Char)
  | printMsg (msg : List Char)
  | shellCall (cmd : List Char)
  | saveSim (alternative_names : List (List Char))
      (variable_type_list : List (List Char))
      (reservoir_list : List (List Char))
      (base_dir : List Char) (csv_output_path : List Char)
  | rmtree (path : List Char)
deriving DecidableEq

/-- Python `l[i]`: the element, or an `IndexError`. -/
def pyIndex {α : Type} (l : List α) (i : Nat) : Except PyErr α :=
  match l[i]? with
  | some x => Except.ok x
  | none => Except.error PyErr.indexError

def sDss : List Char := ".dss".toList
def sStudy : List Char := "study".toList
def sDriveC : List Char := "drive_c".toList
def sShared : List Char := "shared".toList
def sSlash : List Char := "/".toList
def sDoubleBackslash : List Char := "\\\\".toList
def sTemplates : List Char := "templates".toList
def sRunSimPy : List Char := "run_sim.py".toList
def sEmptyDss : List Char := "empty.dss".toList
def s02Calculs : List Char := "02_Calculs".toList
def s01Programmes : List Char := "01_Programmes".toList
def sLaminageSTO : List Char := "Laminage_STO".toList
def s03Resultats : List Char := "03_Resultats".toList
def s02Bases : List Char := "02_Bases".toList
def s01Intrants : List Char := "01_Intrants".toList
def sSeriesSto : List Char := "Series_stochastiques".toList
def sDssDir : List Char := "dss".toList
def sStarDss : List Char := "*.dss".toList
def sSimulationRel : List Char :=
  "base/Outaouais_long/rss/simulation/simulation.dss".toList
def defaultExeRel : List Char :=
  ".wine/drive_c/Program Files/HEC/HEC-ResSim/3.1/HEC-ResSim.exe".toList
def hecNotFoundMsg : List Char :=
  "HEC-ResSim.exe not found automatically. Please provide the hec_res_sim_path argument".toList
def startDate : List Char := "01JAN2001 00:00:00".toList
def endDate : List Char := "30JUL2001 00:00:00".toList

/-- `errno.EEXIST`. -/
def eEXIST : Nat := 17

/-- The `if not os.path.isdir(p): try: os.makedirs(p) except OSError as e:
if e.errno != errno.EEXIST: raise` pattern, given whether the directory
already exists and the outcome the OS would give `makedirs`. -/
def ensureDirPy (isdir : Bool) (mkResult : Except Nat Unit) : Except PyErr Unit :=
  if isdir then Except.ok ()
  else
    match mkResult with
    | Except.ok _ => Except.ok ()
    | Except.error e =>
      if e = eEXIST then Except.ok () else Except.error (PyErr.osError e)

/-- `["%07d.dss" % (i,) for i in range(1, 101)]` (base.py line 188). -/
def readAlternativeNames : List (List Char) :=
  (List.range' 1 100).map (fun i => pyFormatNat 7 i ++ sDss)

/-- `['M' + "%09d0" % (i,) for i in range(1, 101)]` (base.py line 209). -/
def saveAlternativeNames : List (List Char) :=
  (List.range' 1 100).map (fun i => 'M' :: (pyFormatNat 9 i ++ ['0']))

/-- The `_read_dss_values` calls issued at base.py lines 189-195: outer loop
over `routing_config['reservoir_list']`, inner loop over
`readAlternativeNames`, all with the fixed 2001 date window. -/
def readDssCalls (reservoir_list : List (List Char)) (base_dir : List Char) :
    List Effect :=
  reservoir_list.flatMap (fun nomBV =>
    readAlternativeNames.map (fun aname =>
      Effect.readDss aname nomBV base_dir startDate endDate))

/-- Renamed basenames produced at base.py lines 177-180:
`"{:07d}".format(int(basename) - min_sim_number) + '.dss'` where each file
is represented by the numeric index parsed from its basename. -/
def renameTargets (min_sim_number : Int) (dss_list : List Int) :
    List (List Char) :=
  dss_list.map (fun j => pyFormatInt 7 (j - min_sim_number) ++ sDss)

/-- The shell command built at base.py line 248:
`"wine '%s' %s %s" % (hec_res_sim_exe_path, script_path, base_path)`. -/
def wineCommand (exe script base : List Char) : List Char :=
  "wine '".toList ++ exe ++ "' ".toList ++ script ++ " ".toList ++ base

/-- `BaseManager.run_sim` (base.py lines 218-250). `fileExists` abstracts
`Path(...).resolve(strict=True)` succeeding; `home` is `os.environ['HOME']`;
`file_dir` is `os.path.dirname(__file__)`. On a missing executable the
source prints and skips; otherwise it copies the driver script and shells
out, deriving the script path by splitting on `'drive_c'` (an `IndexError`
when the project path has no such component). -/
def run_sim (fileExists : List Char → Bool) (home file_dir project_path : List Char)
    (base_path : List Char) (hec_res_sim_exe_path : Option (List Char)) :
    Except PyErr (List Effect) :=
  let exePath :=
    match hec_res_sim_exe_path with
    | none => pathJoin home defaultExeRel
    | some p => p
  if fileExists exePath then
    let programsDir := pathJoin (pathJoin project_path s02Calculs) s01Programmes
    match pyIndex (listSplitOn sDriveC (pathJoin programsDir sRunSimPy)) 1 with
    | Except.error e => Except.error e
    | Except.ok tl =>
      let script_path := pyReplace ('C' :: ':' :: tl) sSlash sDoubleBackslash
      Except.ok [Effect.copyFile (pathJoin (pathJoin file_dir sTemplates) sRunSimPy)
                   programsDir,
                 Effect.shellCall (wineCommand exePath script_path base_path)]
  else
    Except.ok [Effect.printMsg hecNotFoundMsg]

/-- Ambient filesystem/OS facts consumed by `runPartialBase`: whether the
destination exists, outcomes of the two `os.makedirs` calls, the results of
`Path(output_path).rglob("study")`, `os.path.realpath`, the stale
`shared/*.dss` glob, plus the inputs `run_sim` reads. -/
structure PBEnv where
  outputPathIsDir : Bool
  makedirsResult : Except Nat Unit
  studyResults : List (List Char)
  realpath : List Char → List Char
  sharedDssGlob : List (List Char)
  fileExists : List Char → Bool
  home : List Char
  fileDir : List Char
  csvOutIsDir : Bool
  csvMakedirsResult : Except Nat Unit

/-- `BaseManager.run_partial_base` (base.py lines 131-216), as the trace of
effects it performs, or the Python exception it raises. Each dss file in the
chunk is represented by the numeric index parsed from its basename
(`int(os.path.basename(f).split('.')[0])`). Fallible steps, in source
order: the `os.makedirs(output_path)` guard; `result[0]` of the `"study"`
rglob; `dss_list[0]`; `complete_output_path.split('drive_c')[1]`; the
`run_sim` call; the `os.makedirs(csv_output_path)` guard. -/
def runPartialBase (env : PBEnv) (project_path model_base_folder : List Char)
    (dss_list : List Int) (output_path : List Char)
    (reservoir_list variable_type_list : List (List Char)) :
    Except PyErr (List Effect) :=
  match ensureDirPy env.outputPathIsDir env.makedirsResult with
  | Except.error e => Except.error e
  | Except.ok _ =>
    match pyIndex env.studyResults 0 with
    | Except.error e => Except.error e
    | Except.ok r0 =>
      let complete_output_path := env.realpath ((listSplitOn sStudy r0).headD [])
      match dss_list with
      | [] => Except.error PyErr.indexError
      | k :: _ =>
        let min_sim_number : Int := k - 1
        let copyEffects := dss_list.map (fun j =>
          Effect.copyDss j (pathJoin (pathJoin complete_output_path sShared)
            (pyFormatInt 7 (j - min_sim_number) ++ sDss)))
        let dss_filename_output := pathJoin output_path sSimulationRel
        match pyIndex (listSplitOn sDriveC complete_output_path) 1 with
        | Except.error e => Except.error e
        | Except.ok tl =>
          let output_path_windows := pyReplace ('C' :: ':' :: tl) sSlash sDoubleBackslash
          match run_sim env.fileExists env.home env.fileDir project_path
              output_path_windows none with
          | Except.error e => Except.error e
          | Except.ok runEffects =>
            let csv_output_path :=
              pathJoin (pathJoin (pathJoin project_path s02Calculs) sLaminageSTO)
                s03Resultats
            match ensureDirPy env.csvOutIsDir env.csvMakedirsResult with
            | Except.error e => Except.error e
            | Except.ok _ =>
              Except.ok
                (Effect.copyTree model_base_folder output_path
                  :: (env.sharedDssGlob.map Effect.removeFile
                    ++ copyEffects
                    ++ [Effect.copyFile
                          (pathJoin (pathJoin env.fileDir sTemplates) sEmptyDss)
                          dss_filename_output]
                    ++ readDssCalls reservoir_list output_path
                    ++ runEffects
                    ++ [Effect.saveSim saveAlternativeNames variable_type_list
                          reservoir_list output_path csv_output_path,
                        Effect.rmtree output_path]))

/-- One deferred unit of work built by the orchestrators: a chunk of the
sorted pool plus the batch directory it will be staged into. -/
structure DistTask where
  chunk : List (List Char)
  out : List Char
deriving DecidableEq

/-- Whether the deferred units were handed to `client.compute` or returned
raw. -/
inductive DistResult where
  | submitted (tasks : List DistTask)
  | unsubmitted (tasks : List DistTask)
deriving DecidableEq

def tasksOf : DistResult → List DistTask
  | DistResult.submitted ts => ts
  | DistResult.unsubmitted ts => ts

/-- `[dss_list[x:x + 100] for x in range(0, len(dss_list), 100)]`
(base.py line 314). -/
def pyChunks {α : Type} (l : List α) : List (List α) :=
  (List.range' 0 ((l.length + 99) / 100) 100).map
    (fun x => (l.drop x).take 100)

def defaultOutputPath (project_path : List Char) : List Char :=
  pathJoin (pathJoin (pathJoin project_path s02Calculs) sLaminageSTO) s02Bases

def defaultDssPath (project_path : List Char) : List Char :=
  pathJoin (pathJoin (pathJoin project_path s01Intrants) sSeriesSto) sDssDir

/-- The directory-override prelude of the orchestrators (base.py lines
288-310): a supplied override is used as-is; only a `None` override falls
back to the default path, which is created when absent (creation is assumed
to succeed here; the `EEXIST` race handling of that pattern is modelled by
`ensureDirPy`). Returns the resolved path and the directories created. -/
def resolveDir (isdir : List Char → Bool) (defaultPath : List Char) :
    Option (List Char) → List Char × List (List Char)
  | none => (defaultPath, if isdir defaultPath then [] else [defaultPath])
  | some p => (p, [])

/-- `BaseManager.run_distributed_simulations` (base.py lines 252-322):
resolve the two directories, glob and sort the pool, chunk it by 100, build
one task per chunk staged into `'b' + "{:06d}".format(idx + 1)`, and submit
them all to the dask client. Returns the result and the directories
created by the prelude. -/
def run_distributed_simulations (isdir : List Char → Bool)
    (glob : List Char → List (List Char)) (project_path : List Char)
    (output_path dss_path : Option (List Char)) :
    DistResult × List (List Char) :=
  let op := resolveDir isdir (defaultOutputPath project_path) output_path
  let dp := resolveDir isdir (defaultDssPath project_path) dss_path
  let dss_list := pySorted (glob (pathJoin dp.1 sStarDss))
  let chunks := pyChunks dss_list
  (DistResult.submitted (chunks.enum.map (fun p =>
      { chunk := p.2, out := pathJoin op.1 ('b' :: pyFormatNat 6 (p.1 + 1)) })),
   op.2 ++ dp.2)

/-- `BaseManager.run_distributed_simulations_ext` (base.py lines 324-395):
identical prelude, but the computed chunk list is overwritten by
`chunks = [dss_list[0:100]]`, and the deferred objects are returned without
`client.compute`. -/
def run_distributed_simulations_ext (isdir : List Char → Bool)
    (glob : List Char → List (List Char)) (project_path : List Char)
    (output_path dss_path : Option (List Char)) :
    DistResult × List (List Char) :=
  let op := resolveDir isdir (defaultOutputPath project_path) output_path
  let dp := resolveDir isdir (defaultDssPath project_path) dss_path
  let dss_list := pySorted (glob (pathJoin dp.1 sStarDss))
  let chunks := pyChunks dss_list
  let chunks := [dss_list.take 100]
  (DistResult.unsubmitted (chunks.enum.map (fun p =>
      { chunk := p.2, out := pathJoin op.1 ('b' :: pyFormatNat 6 (p.1 + 1)) })),
   op.2 ++ dp.2)

theorem pyChunks_length {α : Type} (l : List α) :
    (pyChunks l).length = (l.length + 99) / 100 := by
  simp [pyChunks]

theorem pyChunks_getElem {α : Type} (l : List α) (i : Nat)
    (h : i < (pyChunks l).length) :
    (pyChunks l)[i] = (l.drop (100 * i)).take 100 := by
  unfold pyChunks at *
  rw [List.getElem_map, List.getElem_range']
  simp

theorem pyChunks_flatten_aux {α : Type} (n : Nat) :
    ∀ l : List α, l.length ≤ n → (pyChunks l).flatten = l := by
  have hnil : (pyChunks ([] : List α)).flatten = [] := by
    simp [pyChunks]
  induction n with
  | zero =>
    intro l hl
    have : l = [] := List.length_eq_zero.mp (Nat.le_zero.mp hl)
    subst this
    exact hnil
  | succ n ih =>
    intro l hl
    by_cases h0 : l = []
    · subst h0; exact hnil
    · have hpos : 0 < l.length := List.length_pos.mpr h0
      obtain ⟨m, hm⟩ : ∃ m, (l.length + 99) / 100 = m + 1 :=
        ⟨(l.length + 99) / 100 - 1, by omega⟩
      have hm' : ((l.drop 100).length + 99) / 100 = m := by
        rw [List.length_drop]
        omega
      unfold pyChunks
      rw [hm, List.range'_succ, List.map_cons, List.flatten_cons, List.drop_zero]
      have hshift : List.range' 100 m 100
          = (List.range' 0 m 100).map (fun x => 100 + x) := by
        rw [List.map_add_range']
      rw [hshift, List.map_map]
      have hcomp : ((fun x => (l.drop x).take 100) ∘ fun x => 100 + x)
          = fun x => ((l.drop 100).drop x).take 100 := by
        funext x
        simp only [Function.comp_apply, List.drop_drop]
      rw [hcomp]
      have htail : (List.range' 0 m 100).map
          (fun x => ((l.drop 100).drop x).take 100) = pyChunks (l.drop 100) := by
        unfold pyChunks
        rw [hm']
      rw [htail, ih (l.drop 100) (by rw [List.length_drop]; omega)]
      exact List.take_append_drop 100 l

theorem pyChunks_flatten {α : Type} (l : List α) : (pyChunks l).flatten = l :=
  pyChunks_flatten_aux l.length l (Nat.le_refl _)

/-- Claim C1: for a non-empty input pool of `N` scenario files, the
orchestrator `run_distributed_simulations` enumerates the container files
sorted by name and partitions them into exactly `⌈N/100⌉` chunks (computed
as `(N + 99) / 100`), each of size 100 except possibly the last, whose size
is `N % 100` (or 100 when `100 ∣ N`), and the concatenation of the chunks
in order equals the sorted pool. -/
theorem run_distributed_simulations_chunking
    (isdir : List Char → Bool) (glob : List Char → List (List Char))
    (project_path : List Char) (output_path dss_path : Option (List Char))
    (L : List (List Char)) (N : Nat)
    (hL : L = pySorted (glob (pathJoin
      (resolveDir isdir (defaultDssPath project_path) dss_path).1 sStarDss)))
    (hN : N = (glob (pathJoin
      (resolveDir isdir (defaultDssPath project_path) dss_path).1 sStarDss)).length)
    (hpos : 0 < N) :
    (tasksOf (run_distributed_simulations isdir glob project_path
        output_path dss_path).1).map DistTask.chunk = pyChunks L
    ∧ (pyChunks L).length = (N + 99) / 100
    ∧ (∀ i, i + 1 < (pyChunks L).length → ((pyChunks L).getD i []).length = 100)
    ∧ ((pyChunks L).getD ((pyChunks L).length - 1) []).length
        = (if N % 100 = 0 then 100 else N % 100)
    ∧ (pyChunks L).flatten = L := by
  have hLN : L.length = N := by rw [hL, length_pySorted, hN]
  refine ⟨?_, ?_, ?_, ?_, pyChunks_flatten L⟩
  · simp only [run_distributed_simulations, tasksOf, ← hL]
    rw [List.map_map]
    exact List.enum_map_snd _
  · rw [pyChunks_length, hLN]
  · intro i hi
    rw [pyChunks_length, hLN] at hi
    have hilt : i < (pyChunks L).length := by rw [pyChunks_length, hLN]; omega
    rw [List.getD_eq_getElem?_getD, List.getElem?_eq_getElem hilt,
      Option.getD_some, pyChunks_getElem]
    rw [List.length_take, List.length_drop, hLN]
    have : 100 * i + 100 ≤ N := by omega
    omega
  · have hlen : (pyChunks L).length = (N + 99) / 100 := by
      rw [pyChunks_length, hLN]
    have hilt : (pyChunks L).length - 1 < (pyChunks L).length := by
      rw [hlen]; omega
    rw [List.getD_eq_getElem?_getD, List.getElem?_eq_getElem hilt,
      Option.getD_some, pyChunks_getElem]
    rw [List.length_take, List.length_drop, hLN, hlen]
    by_cases h100 : N % 100 = 0 <;> simp only [h100, if_true, if_false] <;> omega

/-- Witness for C1 at a one-file pool: the hypothesis `0 < N` holds and the
chunking facts follow by applying the theorem. -/
theorem run_distributed_simulations_chunking_witness :
    0 < ([['a']] : List (List Char)).length
    ∧ ((tasksOf (run_distributed_simulations (fun _ => true) (fun _ => [['a']])
          [] none none).1).map DistTask.chunk = pyChunks [['a']]
      ∧ (pyChunks [['a']]).length = (1 + 99) / 100
      ∧ (∀ i, i + 1 < (pyChunks ([['a']] : List (List Char))).length →
          ((pyChunks ([['a']] : List (List Char))).getD i []).length = 100)
      ∧ ((pyChunks ([['a']] : List (List Char))).getD
          ((pyChunks ([['a']] : List (List Char))).length - 1) []).length
          = (if 1 % 100 = 0 then 100 else 1 % 100)
      ∧ (pyChunks [['a']]).flatten = [['a']]) :=
  ⟨by decide,
   run_distributed_simulations_chunking (fun _ => true) (fun _ => [['a']])
     [] none none [['a']] 1 (by decide) (by decide) (by decide)⟩

theorem batchName_injective (base : List Char) :
    Function.Injective (fun i : Nat => pathJoin base ('b' :: pyFormatNat 6 (i + 1))) := by
  intro i j h
  simp only [pathJoin] at h
  have h1 := List.append_cancel_left h
  have h2 := (List.cons.inj h1).2
  have h3 := (List.cons.inj h2).2
  have := pyFormatNat_injective 6 h3
  omega

/-- Claim C6: the orchestrator names the staged directory of the `i`-th
chunk (1-based) `'b'` followed by the 6-digit zero-padded value of `i`
(joined under the resolved output directory), and these batch directory
names are pairwise distinct across the batches of one orchestration call. -/
theorem run_distributed_simulations_batch_names
    (isdir : List Char → Bool) (glob : List Char → List (List Char))
    (project_path : List Char) (output_path dss_path : Option (List Char)) :
    (∀ i, i < (tasksOf (run_distributed_simulations isdir glob project_path
        output_path dss_path).1).length →
      ((tasksOf (run_distributed_simulations isdir glob project_path
          output_path dss_path).1).getD i { chunk := [], out := [] }).out
        = pathJoin (resolveDir isdir (defaultOutputPath project_path) output_path).1
            ('b' :: pyFormatNat 6 (i + 1)))
    ∧ ((tasksOf (run_distributed_simulations isdir glob project_path
        output_path dss_path).1).map DistTask.out).Nodup := by
  set outp := (resolveDir isdir (defaultOutputPath project_path) output_path).1 with houtp
  set cs := pyChunks (pySorted (glob (pathJoin
    (resolveDir isdir (defaultDssPath project_path) dss_path).1 sStarDss))) with hcs
  have hts : tasksOf (run_distributed_simulations isdir glob project_path
      output_path dss_path).1
      = cs.enum.map (fun p =>
          { chunk := p.2, out := pathJoin outp ('b' :: pyFormatNat 6 (p.1 + 1)) }) := by
    simp only [run_distributed_simulations, tasksOf, hcs, houtp]
  constructor
  · intro i hi
    rw [hts] at hi ⊢
    rw [List.length_map, List.enum_length] at hi
    have hie : i < cs.enum.length := by rw [List.enum_length]; exact hi
    have him : i < (cs.enum.map (fun p =>
        ({ chunk := p.2, out := pathJoin outp ('b' :: pyFormatNat 6 (p.1 + 1)) }
          : DistTask))).length := by
      rw [List.length_map]; exact hie
    rw [List.getD_eq_getElem?_getD, List.getElem?_eq_getElem him,
      Option.getD_some, List.getElem_map, List.getElem_enum]
  · rw [hts, List.map_map]
    have hmap : ((fun t : DistTask => t.out) ∘ fun p : Nat × List (List Char) =>
        ({ chunk := p.2, out := pathJoin outp ('b' :: pyFormatNat 6 (p.1 + 1)) }
          : DistTask))
        = (fun i : Nat => pathJoin outp ('b' :: pyFormatNat 6 (i + 1))) ∘ Prod.fst := by
      funext p
      rfl
    rw [hmap, ← List.map_map]
    refine List.Nodup.map (batchName_injective outp) ?_
    have : cs.enum.map Prod.fst = List.range cs.length := by
      apply List.ext_getElem
      · rw [List.length_map, List.enum_length, List.length_range]
      · intro n h1 h2
        rw [List.getElem_map, List.getElem_enum, List.getElem_range]
    rw [this]
    exact List.nodup_range _

/-- Witness for C6 at a one-file pool: batch 1 is staged into
`<output>/b000001` and the name list has no duplicates. -/
theorem run_distributed_simulations_batch_names_witness :
    ((tasksOf (run_distributed_simulations (fun _ => true) (fun _ => [['a']])
        [] none none).1).getD 0 { chunk := [], out := [] }).out
      = pathJoin (resolveDir (fun _ => true) (defaultOutputPath []) none).1
          ('b' :: pyFormatNat 6 (0 + 1))
    ∧ ((tasksOf (run_distributed_simulations (fun _ => true) (fun _ => [['a']])
        [] none none).1).map DistTask.out).Nodup :=
  ⟨(run_distributed_simulations_batch_names (fun _ => true) (fun _ => [['a']])
      [] none none).1 0 (by decide),
   (run_distributed_simulations_batch_names (fun _ => true) (fun _ => [['a']])
      [] none none).2⟩

/-- Claim C10: `run_distributed_simulations_ext` discards the computed
chunk list and builds exactly one deferred unit, covering only the first
`min(N, 100)` files of the sorted pool and always staged into batch
directory `b000001`, and it returns the deferred objects unsubmitted —
unlike `run_distributed_simulations`, which submits one unit per chunk to
the client. -/
theorem run_distributed_simulations_ext_single_unsubmitted
    (isdir : List Char → Bool) (glob : List Char → List (List Char))
    (project_path : List Char) (output_path dss_path : Option (List Char))
    (L : List (List Char))
    (hL : L = pySorted (glob (pathJoin
      (resolveDir isdir (defaultDssPath project_path) dss_path).1 sStarDss))) :
    run_distributed_simulations_ext isdir glob project_path output_path dss_path
      = (DistResult.unsubmitted
          [{ chunk := L.take 100,
             out := pathJoin
               (resolveDir isdir (defaultOutputPath project_path) output_path).1
               "b000001".toList }],
         (resolveDir isdir (defaultOutputPath project_path) output_path).2
           ++ (resolveDir isdir (defaultDssPath project_path) dss_path).2)
    ∧ (L.take 100).length = min 100 L.length
    ∧ (run_distributed_simulations isdir glob project_path output_path dss_path).1
        = DistResult.submitted ((pyChunks L).enum.map (fun p =>
            { chunk := p.2,
              out := pathJoin
                (resolveDir isdir (defaultOutputPath project_path) output_path).1
                ('b' :: pyFormatNat 6 (p.1 + 1)) }))
    ∧ (tasksOf (run_distributed_simulations isdir glob project_path
        output_path dss_path).1).length = (pyChunks L).length := by
  have hb : ('b' :: pyFormatNat 6 (0 + 1)) = "b000001".toList := by decide
  refine ⟨?_, List.length_take 100 L, ?_, ?_⟩
  · simp only [run_distributed_simulations_ext, ← hL]
    rw [show (L.take 100 :: ([] : List (List (List Char)))).enum
        = [(0, L.take 100)] from rfl]
    simp [hb]
  · simp only [run_distributed_simulations, ← hL]
  · simp only [run_distributed_simulations, tasksOf, ← hL]
    rw [List.length_map, List.enum_length]

/-- Witness for C10 at a two-file pool. -/
theorem run_distributed_simulations_ext_single_unsubmitted_witness :
    run_distributed_simulations_ext (fun _ => true) (fun _ => [['a'], ['c']])
        [] none none
      = (DistResult.unsubmitted
          [{ chunk := ([['a'], ['c']] : List (List Char)).take 100,
             out := pathJoin
               (resolveDir (fun _ => true) (defaultOutputPath []) none).1
               "b000001".toList }],
         (resolveDir (fun _ => true) (defaultOutputPath []) none).2
           ++ (resolveDir (fun _ => true) (defaultDssPath []) none).2)
    ∧ (([['a'], ['c']] : List (List Char)).take 100).length
        = min 100 ([['a'], ['c']] : List (List Char)).length
    ∧ (run_distributed_simulations (fun _ => true) (fun _ => [['a'], ['c']])
        [] none none).1
        = DistResult.submitted ((pyChunks ([['a'], ['c']] : List (List Char))).enum.map
            (fun p =>
              { chunk := p.2,
                out := pathJoin
                  (resolveDir (fun _ => true) (defaultOutputPath []) none).1
                  ('b' :: pyFormatNat 6 (p.1 + 1)) }))
    ∧ (tasksOf (run_distributed_simulations (fun _ => true) (fun _ => [['a'], ['c']])
        [] none none).1).length
        = (pyChunks ([['a'], ['c']] : List (List Char))).length :=
  run_distributed_simulations_ext_single_unsubmitted (fun _ => true)
    (fun _ => [['a'], ['c']]) [] none none [['a'], ['c']] (by decide)

theorem pyFormatInt_nonneg {w : Nat} {n : Int} (h : 0 ≤ n) :
    pyFormatInt w n = pyFormatNat w n.toNat := by
  unfold pyFormatInt
  rw [if_neg (by omega)]

theorem renameTargets_length (m : Int) (dss : List Int) :
    (renameTargets m dss).length = dss.length := by
  simp [renameTargets]

theorem renameTargets_getD (m : Int) (dss : List Int) (i : Nat)
    (hi : i < dss.length) :
    (renameTargets m dss).getD i [] = pyFormatInt 7 (dss.getD i 0 - m) ++ sDss := by
  rw [List.getD_eq_getElem?_getD, List.getD_eq_getElem?_getD]
  unfold renameTargets
  rw [List.getElem?_map, List.getElem?_eq_getElem hi]
  simp

/-- Claim C2: for a non-empty chunk whose first file has numeric index `k`
(each file represented by the index parsed from its basename, all indices
within `[k, k + 9999999)` as staged chunks are), `run_partial_base` renames
the file of index `j` to the 7-digit zero-padding of `j - (k - 1)` plus
`.dss`; in particular index `k` maps to `0000001.dss`, the renaming
preserves the relative (numeric) order of the chunk, and every renamed file
is a 7-digit zero-padded name with the `.dss` extension. -/
theorem renameTargets_renumbering (k : Int) (rest : List Int)
    (hub : ∀ j ∈ (k :: rest), k ≤ j ∧ j < k + 9999999) :
    (renameTargets (k - 1) (k :: rest)).length = (k :: rest).length
    ∧ (∀ i, i < (k :: rest).length →
        (renameTargets (k - 1) (k :: rest)).getD i []
          = pyFormatNat 7 ((k :: rest).getD i 0 - (k - 1)).toNat ++ sDss)
    ∧ (renameTargets (k - 1) (k :: rest)).getD 0 [] = "0000001.dss".toList
    ∧ (∀ i i', i < (k :: rest).length → i' < (k :: rest).length →
        (k :: rest).getD i 0 < (k :: rest).getD i' 0 →
        digitsVal (((renameTargets (k - 1) (k :: rest)).getD i []).take 7)
          < digitsVal (((renameTargets (k - 1) (k :: rest)).getD i' []).take 7))
    ∧ (∀ t ∈ renameTargets (k - 1) (k :: rest),
        t.length = 11 ∧ (∀ c ∈ t.take 7, 48 ≤ c.toNat ∧ c.toNat ≤ 57)
          ∧ t.drop 7 = sDss) := by
  have hmem : ∀ i, i < (k :: rest).length → (k :: rest).getD i 0 ∈ (k :: rest) := by
    intro i hi
    rw [List.getD_eq_getElem?_getD, List.getElem?_eq_getElem hi, Option.getD_some]
    exact List.getElem_mem hi
  have hval : ∀ i, i < (k :: rest).length →
      1 ≤ ((k :: rest).getD i 0 - (k - 1)).toNat
      ∧ ((k :: rest).getD i 0 - (k - 1)).toNat < 10 ^ 7 := by
    intro i hi
    obtain ⟨h1, h2⟩ := hub _ (hmem i hi)
    constructor <;> [skip ; rw [show (10 : Nat) ^ 7 = 10000000 from rfl]] <;> omega
  have hgetD : ∀ i, i < (k :: rest).length →
      (renameTargets (k - 1) (k :: rest)).getD i []
        = pyFormatNat 7 ((k :: rest).getD i 0 - (k - 1)).toNat ++ sDss := by
    intro i hi
    rw [renameTargets_getD _ _ _ hi]
    obtain ⟨h1, -⟩ := hub _ (hmem i hi)
    rw [pyFormatInt_nonneg (by omega)]
  have hlen7 : ∀ i, i < (k :: rest).length →
      (pyFormatNat 7 ((k :: rest).getD i 0 - (k - 1)).toNat).length = 7 := by
    intro i hi
    exact pyFormatNat_length (hval i hi).2 (by norm_num)
  refine ⟨renameTargets_length _ _, hgetD, ?_, ?_, ?_⟩
  · rw [hgetD 0 (by simp)]
    have : ((k :: rest).getD 0 0 - (k - 1)) = 1 := by
      simp only [List.getD_cons_zero]
      omega
    rw [this]
    decide
  · intro i i' hi hi' hlt
    rw [hgetD i hi, hgetD i' hi',
      List.take_left' (hlen7 i hi), List.take_left' (hlen7 i' hi'),
      digitsVal_pyFormatNat, digitsVal_pyFormatNat]
    obtain ⟨ha1, -⟩ := hub _ (hmem i hi)
    obtain ⟨hb1, -⟩ := hub _ (hmem i' hi')
    omega
  · intro t ht
    unfold renameTargets at ht
    rw [List.mem_map] at ht
    obtain ⟨j, hj, rfl⟩ := ht
    obtain ⟨h1, h2⟩ := hub _ hj
    rw [pyFormatInt_nonneg (by omega)]
    have hv : (j - (k - 1)).toNat < 10 ^ 7 := by
      rw [show (10 : Nat) ^ 7 = 10000000 from rfl]
      omega
    have hl7 : (pyFormatNat 7 (j - (k - 1)).toNat).length = 7 :=
      pyFormatNat_length hv (by norm_num)
    refine ⟨?_, ?_, List.drop_left' hl7⟩
    · rw [List.length_append, hl7]
      rfl
    · intro c hc
      rw [List.take_left' hl7] at hc
      exact pyFormatNat_digits hc

/-- Witness for C2 at the chunk with indices `[101, 102, 105]` (first index
`k = 101`). -/
theorem renameTargets_renumbering_witness :
    (∀ j ∈ ([(101 : Int), 102, 105] : List Int), 101 ≤ j ∧ j < 101 + 9999999)
    ∧ ((renameTargets (101 - 1) (101 :: [102, 105])).length
          = ((101 : Int) :: [102, 105]).length
      ∧ (∀ i, i < ((101 : Int) :: [102, 105]).length →
          (renameTargets (101 - 1) (101 :: [102, 105])).getD i []
            = pyFormatNat 7 (((101 : Int) :: [102, 105]).getD i 0 - (101 - 1)).toNat
                ++ sDss)
      ∧ (renameTargets (101 - 1) (101 :: [102, 105])).getD 0 [] = "0000001.dss".toList
      ∧ (∀ i i', i < ((101 : Int) :: [102, 105]).length →
          i' < ((101 : Int) :: [102, 105]).length →
          ((101 : Int) :: [102, 105]).getD i 0 < ((101 : Int) :: [102, 105]).getD i' 0 →
          digitsVal (((renameTargets (101 - 1) (101 :: [102, 105])).getD i []).take 7)
            < digitsVal (((renameTargets (101 - 1) (101 :: [102, 105])).getD i' []).take 7))
      ∧ (∀ t ∈ renameTargets (101 - 1) (101 :: [102, 105]),
          t.length = 11 ∧ (∀ c ∈ t.take 7, 48 ≤ c.toNat ∧ c.toNat ≤ 57)
            ∧ t.drop 7 = sDss)) :=
  ⟨by decide, renameTargets_renumbering 101 [102, 105] (by decide)⟩

theorem readAlternativeNames_injective :
    Function.Injective (fun i : Nat => pyFormatNat 7 i ++ sDss) := by
  intro i j h
  exact pyFormatNat_injective 7 (List.append_cancel_right h)

theorem readAlternativeNames_nodup : readAlternativeNames.Nodup := by
  unfold readAlternativeNames
  exact List.Nodup.map readAlternativeNames_injective (List.nodup_range' 1 100)

theorem length_map_const_sum {α : Type} (l : List α) (c : Nat) :
    (l.map (fun _ => c)).sum = l.length * c := by
  induction l with
  | nil => simp
  | cons x xs ih => simp [ih, Nat.succ_mul, Nat.add_comm]

theorem readDssCalls_length (rl : List (List Char)) (base : List Char) :
    (readDssCalls rl base).length = 100 * rl.length := by
  unfold readDssCalls
  rw [List.length_flatMap]
  have : rl.map (List.length ∘ fun nomBV =>
      readAlternativeNames.map (fun aname =>
        Effect.readDss aname nomBV base startDate endDate))
      = rl.map (fun _ => 100) := by
    apply List.map_congr_left
    intro r hr
    simp [readAlternativeNames]
  rw [this, length_map_const_sum]
  omega

theorem mem_readDssCalls {rl : List (List Char)} {base : List Char}
    {e : Effect} (he : e ∈ readDssCalls rl base) :
    ∃ a r, a ∈ readAlternativeNames ∧ r ∈ rl
      ∧ e = Effect.readDss a r base startDate endDate := by
  unfold readDssCalls at he
  rw [List.mem_flatMap] at he
  obtain ⟨r, hr, he⟩ := he
  rw [List.mem_map] at he
  obtain ⟨a, ha, rfl⟩ := he
  exact ⟨a, r, ha, hr, rfl⟩

theorem readDssCalls_cons (r : List Char) (rls : List (List Char))
    (base : List Char) :
    readDssCalls (r :: rls) base
      = readAlternativeNames.map
          (fun aname => Effect.readDss aname r base startDate endDate)
        ++ readDssCalls rls base := by
  unfold readDssCalls
  rw [List.flatMap_cons]

theorem count_readDssCalls (rl : List (List Char)) (base : List Char)
    (hnd : rl.Nodup) (r : List Char) (hr : r ∈ rl) (a : List Char)
    (ha : a ∈ readAlternativeNames) :
    (readDssCalls rl base).count (Effect.readDss a r base startDate endDate)
      = 1 := by
  induction rl with
  | nil => simp at hr
  | cons r' rls ih =>
    rw [List.nodup_cons] at hnd
    rw [readDssCalls_cons, List.count_append]
    have hinj : Function.Injective (fun aname =>
        Effect.readDss aname r base startDate endDate) := by
      intro x y hxy
      simpa using hxy
    rcases List.mem_cons.mp hr with rfl | hrin
    · have hblock : (readAlternativeNames.map (fun aname =>
          Effect.readDss aname r base startDate endDate)).count
            (Effect.readDss a r base startDate endDate) = 1 := by
        rw [List.count_map_of_injective _ _ hinj]
        exact List.count_eq_one_of_mem readAlternativeNames_nodup ha
      have hrest : (readDssCalls rls base).count
          (Effect.readDss a r base startDate endDate) = 0 := by
        rw [List.count_eq_zero]
        intro hmem
        obtain ⟨a', r', -, hr', heq⟩ := mem_readDssCalls hmem
        obtain ⟨-, rfl⟩ : a = a' ∧ r = r' := by
          constructor <;> [exact (Effect.readDss.inj heq).1 ;
            exact (Effect.readDss.inj heq).2.1]
        exact hnd.1 hr'
      rw [hblock, hrest]
    · have hne : r ≠ r' := by
        rintro rfl
        exact hnd.1 hrin
      have hblock : (readAlternativeNames.map (fun aname =>
          Effect.readDss aname r' base startDate endDate)).count
            (Effect.readDss a r base startDate endDate) = 0 := by
        rw [List.count_eq_zero]
        intro hmem
        rw [List.mem_map] at hmem
        obtain ⟨a', -, heq⟩ := hmem
        exact hne ((Effect.readDss.inj heq).2.1).symm
      rw [hblock, ih hnd.2 hrin]

/-- Claim C5: during staging, for the 100 expected alternative identifiers
(`0000001.dss` through `0000100.dss`) and for every reservoir of the
routing configuration's `reservoir_list`, `run_partial_base` issues exactly
one `_read_dss_values` call per (reservoir, alternative-identifier) pair,
each with the fixed window `01JAN2001 00:00:00` – `30JUL2001 00:00:00`. -/
theorem readDssCalls_per_pair (rl : List (List Char)) (base : List Char)
    (hnd : rl.Nodup) :
    (readDssCalls rl base).length = 100 * rl.length
    ∧ readAlternativeNames.length = 100
    ∧ readAlternativeNames.headD [] = "0000001.dss".toList
    ∧ readAlternativeNames.getLast? = some "0000100.dss".toList
    ∧ (∀ e ∈ readDssCalls rl base, ∃ a r, a ∈ readAlternativeNames ∧ r ∈ rl
        ∧ e = Effect.readDss a r base startDate endDate)
    ∧ (∀ r ∈ rl, ∀ a ∈ readAlternativeNames,
        (readDssCalls rl base).count
          (Effect.readDss a r base startDate endDate) = 1) :=
  ⟨readDssCalls_length rl base, by decide, by decide, by decide,
   fun _ he => mem_readDssCalls he,
   fun r hr a ha => count_readDssCalls rl base hnd r hr a ha⟩

/-- Witness for C5 with the two-reservoir list `["A", "B"]`. -/
theorem readDssCalls_per_pair_witness :
    (["A".toList, "B".toList] : List (List Char)).Nodup
    ∧ ((readDssCalls ["A".toList, "B".toList] []).length
          = 100 * (["A".toList, "B".toList] : List (List Char)).length
      ∧ readAlternativeNames.length = 100
      ∧ readAlternativeNames.headD [] = "0000001.dss".toList
      ∧ readAlternativeNames.getLast? = some "0000100.dss".toList
      ∧ (∀ e ∈ readDssCalls ["A".toList, "B".toList] [],
          ∃ a r, a ∈ readAlternativeNames ∧ r ∈ ["A".toList, "B".toList]
            ∧ e = Effect.readDss a r [] startDate endDate)
      ∧ (∀ r ∈ (["A".toList, "B".toList] : List (List Char)),
          ∀ a ∈ readAlternativeNames,
          (readDssCalls ["A".toList, "B".toList] []).count
            (Effect.readDss a r [] startDate endDate) = 1)) :=
  ⟨by decide, readDssCalls_per_pair ["A".toList, "B".toList] [] (by decide)⟩

/-- Claim C4: whenever the resolved executable path (the
`hec_res_sim_exe_path` argument, or the default path under the wine home
when the argument is `None`) does not point to an existing file, `run_sim`
does not raise, prints the diagnostic message, and performs neither the
driver-script copy nor any shell invocation. -/
theorem run_sim_missing_exe (fileExists : List Char → Bool)
    (home file_dir project_path base_path : List Char)
    (hec_res_sim_exe_path : Option (List Char)) (exePath : List Char)
    (hexe : exePath = (match hec_res_sim_exe_path with
      | none => pathJoin home defaultExeRel
      | some p => p))
    (hmiss : fileExists exePath = false) :
    run_sim fileExists home file_dir project_path base_path hec_res_sim_exe_path
      = Except.ok [Effect.printMsg hecNotFoundMsg]
    ∧ (∀ t, run_sim fileExists home file_dir project_path base_path
          hec_res_sim_exe_path = Except.ok t →
        ∀ e ∈ t, (∀ src dst, e ≠ Effect.copyFile src dst)
          ∧ (∀ cmd, e ≠ Effect.shellCall cmd)) := by
  have hmain : run_sim fileExists home file_dir project_path base_path
      hec_res_sim_exe_path = Except.ok [Effect.printMsg hecNotFoundMsg] := by
    subst hexe
    cases hec_res_sim_exe_path with
    | none => simp [run_sim, hmiss]
    | some p => simp [run_sim, hmiss]
  refine ⟨hmain, ?_⟩
  intro t ht e he
  rw [hmain, Except.ok.injEq] at ht
  subst ht
  rcases List.mem_singleton.mp he with rfl
  refine ⟨fun src dst h => ?_, fun cmd h => ?_⟩ <;> cases h

/-- Witness for C4: constantly-false `fileExists`, default executable
path. -/
theorem run_sim_missing_exe_witness :
    run_sim (fun _ => false) "/h".toList [] "/p".toList [] none
      = Except.ok [Effect.printMsg hecNotFoundMsg]
    ∧ (∀ t, run_sim (fun _ => false) "/h".toList [] "/p".toList [] none
          = Except.ok t →
        ∀ e ∈ t, (∀ src dst, e ≠ Effect.copyFile src dst)
          ∧ (∀ cmd, e ≠ Effect.shellCall cmd)) :=
  run_sim_missing_exe (fun _ => false) "/h".toList [] "/p".toList [] none
    (pathJoin "/h".toList defaultExeRel) rfl rfl

/-- Claim C8 counterexample: with both directory overrides supplied and
both directories absent (`isdir` constantly false), the orchestrator
creates no directory at all — refuting the claim that supplied overrides
are created if absent. -/
theorem run_distributed_simulations_override_not_created :
    (run_distributed_simulations (fun _ => false) (fun _ => [])
        "/p".toList (some "/o".toList) (some "/d".toList)).2 = []
    ∧ (fun _ : List Char => false) "/o".toList = false
    ∧ (fun _ : List Char => false) "/d".toList = false := by
  refine ⟨?_, rfl, rfl⟩
  rfl

/-- Claim C8 (amended): a supplied `output_path` or `dss_path` override is
used as-is and never created by `run_distributed_simulations`; only when an
override is absent (`None`) does the orchestrator fall back to the default
directory and create it when it does not exist. -/
theorem run_distributed_simulations_dirs_amended (isdir : List Char → Bool)
    (glob : List Char → List (List Char)) (project_path : List Char)
    (o d : List Char) :
    (run_distributed_simulations isdir glob project_path (some o) (some d)).2 = []
    ∧ (resolveDir isdir (defaultOutputPath project_path) (some o)).1 = o
    ∧ (resolveDir isdir (defaultDssPath project_path) (some d)).1 = d
    ∧ (run_distributed_simulations isdir glob project_path none none).2
        = (if isdir (defaultOutputPath project_path) then []
            else [defaultOutputPath project_path])
          ++ (if isdir (defaultDssPath project_path) then []
            else [defaultDssPath project_path]) := by
  refine ⟨?_, rfl, rfl, ?_⟩
  · simp [run_distributed_simulations, resolveDir]
  · simp [run_distributed_simulations, resolveDir]

/-- Selects the alternative-name list out of a `saveSim` effect. -/
def saveAltsSel : Effect → Option (List (List Char))
  | Effect.saveSim alts _ _ _ _ => some alts
  | _ => none

/-- All alternative-name lists passed to `_save_simulation_values` in a
trace. -/
def savedAltsOf (t : List Effect) : List (List (List Char)) :=
  t.filterMap saveAltsSel

theorem savedAltsOf_cons_none {e : Effect} (he : saveAltsSel e = none)
    (t : List Effect) : savedAltsOf (e :: t) = savedAltsOf t := by
  unfold savedAltsOf
  rw [List.filterMap_cons, he]

theorem savedAltsOf_append (t1 t2 : List Effect) :
    savedAltsOf (t1 ++ t2) = savedAltsOf t1 ++ savedAltsOf t2 :=
  List.filterMap_append t1 t2 saveAltsSel

theorem savedAltsOf_map_none {α : Type} (f : α → Effect)
    (hf : ∀ a, saveAltsSel (f a) = none) (l : List α) :
    savedAltsOf (l.map f) = [] := by
  induction l with
  | nil => rfl
  | cons x xs ih =>
    rw [List.map_cons, savedAltsOf_cons_none (hf x), ih]

theorem savedAltsOf_map_readDss {r base : List Char} (l : List (List Char)) :
    savedAltsOf (l.map (fun aname =>
      Effect.readDss aname r base startDate endDate)) = [] :=
  savedAltsOf_map_none
    (fun aname => Effect.readDss aname r base startDate endDate)
    (fun _ => rfl) l

theorem savedAltsOf_map_removeFile (l : List (List Char)) :
    savedAltsOf (l.map Effect.removeFile) = [] :=
  savedAltsOf_map_none Effect.removeFile (fun _ => rfl) l

theorem savedAltsOf_map_copyDss {g : Int → List Char} (l : List Int) :
    savedAltsOf (l.map (fun j => Effect.copyDss j (g j))) = [] :=
  savedAltsOf_map_none (fun j => Effect.copyDss j (g j)) (fun _ => rfl) l

theorem savedAltsOf_readDssCalls (rl : List (List Char)) (base : List Char) :
    savedAltsOf (readDssCalls rl base) = [] := by
  induction rl with
  | nil => rfl
  | cons r rls ih =>
    rw [readDssCalls_cons, savedAltsOf_append, ih, savedAltsOf_map_readDss]
    rfl

theorem run_sim_ok_savedAlts {fe : List Char → Bool}
    {home fd pp bp : List Char} {arg : Option (List Char)} {es : List Effect}
    (h : run_sim fe home fd pp bp arg = Except.ok es) :
    savedAltsOf es = [] := by
  simp only [run_sim] at h
  split at h
  · split at h
    · simp at h
    · simp only [Except.ok.injEq] at h
      subst h
      rfl
  · simp only [Except.ok.injEq] at h
    subst h
    rfl

theorem runPartialBase_ok_savedAlts (env : PBEnv)
    (pp mb : List Char) (dl : List Int) (out : List Char)
    (rl vl : List (List Char)) (t : List Effect)
    (h : runPartialBase env pp mb dl out rl vl = Except.ok t) :
    savedAltsOf t = [saveAlternativeNames] := by
  cases h1 : ensureDirPy env.outputPathIsDir env.makedirsResult with
  | error e =>
    simp only [runPartialBase, h1] at h
    exact absurd h (by simp)
  | ok u =>
    cases h2 : pyIndex env.studyResults 0 with
    | error e =>
      simp only [runPartialBase, h1, h2] at h
      exact absurd h (by simp)
    | ok r0 =>
      cases dl with
      | nil =>
        simp only [runPartialBase, h1, h2] at h
        exact absurd h (by simp)
      | cons k ds =>
        cases h3 : pyIndex (listSplitOn sDriveC
            (env.realpath ((listSplitOn sStudy r0).headD []))) 1 with
        | error e =>
          simp only [runPartialBase, h1, h2, h3] at h
          exact absurd h (by simp)
        | ok tl =>
          cases h4 : run_sim env.fileExists env.home env.fileDir pp
              (pyReplace ('C' :: ':' :: tl) sSlash sDoubleBackslash) none with
          | error e =>
            simp only [runPartialBase, h1, h2, h3, h4] at h
            exact absurd h (by simp)
          | ok res =>
            cases h5 : ensureDirPy env.csvOutIsDir env.csvMakedirsResult with
            | error e =>
              simp only [runPartialBase, h1, h2, h3, h4, h5] at h
              exact absurd h (by simp)
            | ok v =>
              simp only [runPartialBase, h1, h2, h3, h4, h5,
                Except.ok.injEq] at h
              subst h
              rw [@savedAltsOf_cons_none (Effect.copyTree mb out) rfl _,
                savedAltsOf_append,
                savedAltsOf_append, savedAltsOf_append, savedAltsOf_append,
                savedAltsOf_append, savedAltsOf_map_removeFile,
                savedAltsOf_map_copyDss,
                savedAltsOf_readDssCalls, run_sim_ok_savedAlts h4]
              rfl

/-- Claim C3: the alternative-name identifiers passed to
`_save_simulation_values` are the same for every batch — any two successful
`run_partial_base` runs (any chunks, any batch directories) pass exactly
the names `'M' ++ 9-digit zero-padded i ++ '0'` for `i` in `1..100`, with
no offset by batch index. -/
theorem runPartialBase_save_names_constant
    (env1 : PBEnv) (pp1 mb1 : List Char) (dl1 : List Int) (out1 : List Char)
    (rl1 vl1 : List (List Char)) (t1 : List Effect)
    (h1 : runPartialBase env1 pp1 mb1 dl1 out1 rl1 vl1 = Except.ok t1)
    (env2 : PBEnv) (pp2 mb2 : List Char) (dl2 : List Int) (out2 : List Char)
    (rl2 vl2 : List (List Char)) (t2 : List Effect)
    (h2 : runPartialBase env2 pp2 mb2 dl2 out2 rl2 vl2 = Except.ok t2) :
    savedAltsOf t1 = savedAltsOf t2
    ∧ savedAltsOf t1 = [saveAlternativeNames]
    ∧ saveAlternativeNames.length = 100
    ∧ (∀ i, i < 100 → saveAlternativeNames.getD i []
        = 'M' :: (pyFormatNat 9 (i + 1) ++ ['0']))
    ∧ saveAlternativeNames.headD [] = "M0000000010".toList
    ∧ saveAlternativeNames.getLast? = some "M0000001000".toList := by
  have e1 := runPartialBase_ok_savedAlts env1 pp1 mb1 dl1 out1 rl1 vl1 t1 h1
  have e2 := runPartialBase_ok_savedAlts env2 pp2 mb2 dl2 out2 rl2 vl2 t2 h2
  refine ⟨by rw [e1, e2], e1, by decide, ?_, by decide, by decide⟩
  intro i hi
  unfold saveAlternativeNames
  have hi' : i < ((List.range' 1 100).map
      (fun j => 'M' :: (pyFormatNat 9 j ++ ['0']))).length := by
    simpa using hi
  rw [List.getD_eq_getElem?_getD, List.getElem?_eq_getElem hi',
    Option.getD_some, List.getElem_map, List.getElem_range']
  have h1i : 1 + 1 * i = i + 1 := by omega
  rw [h1i]

/-- A concrete benign environment: destination and results directories
already exist, the copied tree has a study folder under a `drive_c`
component, and the executable is absent (so the run is skipped). -/
def cPBEnv : PBEnv where
  outputPathIsDir := true
  makedirsResult := Except.ok ()
  studyResults := ["/a/drive_c/x/study/y".toList]
  realpath := fun s => s
  sharedDssGlob := []
  fileExists := fun _ => false
  home := []
  fileDir := []
  csvOutIsDir := true
  csvMakedirsResult := Except.ok ()

/-- The trace of the successful `runPartialBase` run on `cPBEnv`. -/
def cTrace : List Effect :=
  (runPartialBase cPBEnv [] [] [1] [] [] []).toOption.getD []

/-- Witness for C3: two (identical) successful concrete runs. -/
theorem runPartialBase_save_names_constant_witness :
    runPartialBase cPBEnv [] [] [1] [] [] [] = Except.ok cTrace
    ∧ (savedAltsOf cTrace = savedAltsOf cTrace
      ∧ savedAltsOf cTrace = [saveAlternativeNames]
      ∧ saveAlternativeNames.length = 100
      ∧ (∀ i, i < 100 → saveAlternativeNames.getD i []
          = 'M' :: (pyFormatNat 9 (i + 1) ++ ['0']))
      ∧ saveAlternativeNames.headD [] = "M0000000010".toList
      ∧ saveAlternativeNames.getLast? = some "M0000001000".toList) :=
  ⟨rfl,
   runPartialBase_save_names_constant cPBEnv [] [] [1] [] [] [] cTrace rfl
     cPBEnv [] [] [1] [] [] [] cTrace rfl⟩

/-- Claim C7: when `run_partial_base` creates the destination directory and
creation fails, the failure is swallowed iff its error code is `EEXIST`:
any other `OSError` propagates (aborting the batch before any staging
work), while an `EEXIST` failure leaves the run exactly as if the creation
had succeeded. -/
theorem runPartialBase_mkdir_eexist_only (env : PBEnv) (pp mb : List Char)
    (dl : List Int) (out : List Char) (rl vl : List (List Char))
    (hdir : env.outputPathIsDir = false) :
    (∀ e, env.makedirsResult = Except.error e → e ≠ eEXIST →
      runPartialBase env pp mb dl out rl vl = Except.error (PyErr.osError e))
    ∧ (env.makedirsResult = Except.error eEXIST →
      runPartialBase env pp mb dl out rl vl
        = runPartialBase { env with makedirsResult := Except.ok () }
            pp mb dl out rl vl) := by
  constructor
  · intro e hmk hne
    have h1 : ensureDirPy env.outputPathIsDir env.makedirsResult
        = Except.error (PyErr.osError e) := by
      rw [hdir, hmk]
      simp [ensureDirPy, hne]
    simp only [runPartialBase, h1]
  · intro hmk
    have h1 : ensureDirPy env.outputPathIsDir env.makedirsResult
        = Except.ok () := by
      rw [hdir, hmk]
      simp [ensureDirPy]
    have h2 : ensureDirPy
        ({ env with makedirsResult := Except.ok () } : PBEnv).outputPathIsDir
        ({ env with makedirsResult := Except.ok () } : PBEnv).makedirsResult
        = Except.ok () := by
      simp [ensureDirPy, hdir]
    simp only [runPartialBase, h1, h2]

def cEnvEACCES : PBEnv :=
  { cPBEnv with outputPathIsDir := false, makedirsResult := Except.error 13 }

def cEnvEEXIST : PBEnv :=
  { cPBEnv with outputPathIsDir := false, makedirsResult := Except.error 17 }

/-- Witness for C7: an `EACCES` (13) failure propagates; an `EEXIST` (17)
failure is equivalent to a successful creation. -/
theorem runPartialBase_mkdir_eexist_only_witness :
    runPartialBase cEnvEACCES [] [] [1] [] [] []
      = Except.error (PyErr.osError 13)
    ∧ runPartialBase cEnvEEXIST [] [] [1] [] [] []
      = runPartialBase { cEnvEEXIST with makedirsResult := Except.ok () }
          [] [] [1] [] [] [] :=
  ⟨(runPartialBase_mkdir_eexist_only cEnvEACCES [] [] [1] [] [] [] rfl).1
      13 rfl (by decide),
   (runPartialBase_mkdir_eexist_only cEnvEEXIST [] [] [1] [] [] [] rfl).2 rfl⟩

theorem splitFirst_some_hasSubstr {sep s : List Char}
    {p : List Char × List Char} (h : splitFirst sep s = some p)
    (hsep : sep ≠ []) : hasSubstr sep s := by
  by_contra hno
  exact absurd ((splitFirst_eq_none_iff hsep s).mpr hno) (by simp [h])

/-- The `complete_output_path` computed at base.py line 171:
`os.path.realpath(str(result[0]).split('study')[0])`. -/
def completePathOf (env : PBEnv) : List Char :=
  env.realpath ((listSplitOn sStudy (env.studyResults.headD [])).headD [])

/-- Claim C9: `run_partial_base` is partial at its public interface.
With the OS-level steps benign (both directories exist, the executable
absent so the run is skipped), it raises `IndexError` unless (i) the chunk
list is non-empty (`dss_list[0]`), (ii) the copied tree contains a `study`
entry (`result[0]` of the rglob), and (iii) the resolved copied-tree path
contains the substring `drive_c` (`split('drive_c')[1]`); under these
preconditions the error branches are unreachable and the run succeeds. -/
theorem runPartialBase_partiality (env : PBEnv) (pp mb : List Char)
    (dl : List Int) (out : List Char) (rl vl : List (List Char))
    (hdir : env.outputPathIsDir = true) (hcsv : env.csvOutIsDir = true)
    (hexe : env.fileExists (pathJoin env.home defaultExeRel) = false) :
    ((∃ t, runPartialBase env pp mb dl out rl vl = Except.ok t)
      ↔ (dl ≠ [] ∧ env.studyResults ≠ []
          ∧ hasSubstr sDriveC (completePathOf env)))
    ∧ ((dl = [] ∨ env.studyResults = []
        ∨ ¬ hasSubstr sDriveC (completePathOf env)) →
      runPartialBase env pp mb dl out rl vl = Except.error PyErr.indexError) := by
  have h1 : ensureDirPy env.outputPathIsDir env.makedirsResult
      = Except.ok () := by
    rw [hdir]
    rfl
  have h5 : ensureDirPy env.csvOutIsDir env.csvMakedirsResult
      = Except.ok () := by
    rw [hcsv]
    rfl
  cases hs : env.studyResults with
  | nil =>
    have h2 : pyIndex env.studyResults 0 = Except.error PyErr.indexError := by
      rw [hs]
      rfl
    have hrun : runPartialBase env pp mb dl out rl vl
        = Except.error PyErr.indexError := by
      simp only [runPartialBase, h1, h2]
    refine ⟨?_, fun _ => hrun⟩
    rw [hrun]
    constructor
    · rintro ⟨t, ht⟩
      exact absurd ht (by simp)
    · rintro ⟨-, hne, -⟩
      exact absurd rfl hne
  | cons s0 srest =>
    have h2 : pyIndex env.studyResults 0 = Except.ok s0 := by
      rw [hs]
      simp [pyIndex]
    have hcomp : completePathOf env
        = env.realpath ((listSplitOn sStudy s0).headD []) := by
      unfold completePathOf
      rw [hs]
      rfl
    cases dl with
    | nil =>
      have hrun : runPartialBase env pp mb [] out rl vl
          = Except.error PyErr.indexError := by
        simp only [runPartialBase, h1, h2]
      refine ⟨?_, fun _ => hrun⟩
      rw [hrun]
      constructor
      · rintro ⟨t, ht⟩
        exact absurd ht (by simp)
      · rintro ⟨hne, -, -⟩
        exact absurd rfl hne
    | cons k ds =>
      cases hsf : splitFirst sDriveC
          (env.realpath ((listSplitOn sStudy s0).headD [])) with
      | none =>
        have hsplit : listSplitOn sDriveC
            (env.realpath ((listSplitOn sStudy s0).headD []))
            = [env.realpath ((listSplitOn sStudy s0).headD [])] :=
          listSplitOn_of_none hsf
        have h3 : pyIndex (listSplitOn sDriveC
            (env.realpath ((listSplitOn sStudy s0).headD []))) 1
            = Except.error PyErr.indexError := by
          rw [hsplit]
          rfl
        have hrun : runPartialBase env pp mb (k :: ds) out rl vl
            = Except.error PyErr.indexError := by
          simp only [runPartialBase, h1, h2, h3]
        have hnosub : ¬ hasSubstr sDriveC (completePathOf env) := by
          rw [hcomp]
          exact (splitFirst_eq_none_iff (by decide) _).mp hsf
        refine ⟨?_, fun _ => hrun⟩
        rw [hrun]
        constructor
        · rintro ⟨t, ht⟩
          exact absurd ht (by simp)
        · rintro ⟨-, -, hsub⟩
          exact absurd hsub hnosub
      | some p =>
        have hlen : 2 ≤ (listSplitOn sDriveC
            (env.realpath ((listSplitOn sStudy s0).headD []))).length :=
          listSplitOn_of_some hsf
        have h1lt : 1 < (listSplitOn sDriveC
            (env.realpath ((listSplitOn sStudy s0).headD []))).length := by
          omega
        have h3 : pyIndex (listSplitOn sDriveC
            (env.realpath ((listSplitOn sStudy s0).headD []))) 1
            = Except.ok ((listSplitOn sDriveC
                (env.realpath ((listSplitOn sStudy s0).headD []))).get
                  ⟨1, h1lt⟩) := by
          unfold pyIndex
          rw [List.getElem?_eq_getElem h1lt]
          rfl
        have h4 : run_sim env.fileExists env.home env.fileDir pp
            (pyReplace ('C' :: ':' :: (listSplitOn sDriveC
              (env.realpath ((listSplitOn sStudy s0).headD []))).get ⟨1, h1lt⟩)
              sSlash sDoubleBackslash) none
            = Except.ok [Effect.printMsg hecNotFoundMsg] := by
          simp only [run_sim, hexe, Bool.false_eq_true, if_false]
        have hsub : hasSubstr sDriveC (completePathOf env) := by
          rw [hcomp]
          exact splitFirst_some_hasSubstr hsf (by decide)
        constructor
        · constructor
          · intro
            exact ⟨by simp, by simp, hsub⟩
          · intro
            refine ⟨(runPartialBase env pp mb (k :: ds) out rl vl).toOption.getD [],
              ?_⟩
            simp only [runPartialBase, h1, h2, h3, h4, h5]
            rfl
        · intro hbad
          rcases hbad with hbad | hbad | hbad
          · exact absurd hbad (by simp)
          · exact absurd hbad (by simp)
          · exact absurd hsub hbad

/-- Witness for C9: on the benign concrete environment with chunk `[1]`
all three preconditions hold and the run succeeds. -/
theorem runPartialBase_partiality_witness :
    ((∃ t, runPartialBase cPBEnv [] [] [1] [] [] [] = Except.ok t)
      ↔ (([1] : List Int) ≠ [] ∧ cPBEnv.studyResults ≠ []
          ∧ hasSubstr sDriveC (completePathOf cPBEnv)))
    ∧ ((([1] : List Int) = [] ∨ cPBEnv.studyResults = []
        ∨ ¬ hasSubstr sDriveC (completePathOf cPBEnv)) →
      runPartialBase cPBEnv [] [] [1] [] [] []
        = Except.error PyErr.indexError) :=
  runPartialBase_partiality cPBEnv [] [] [1] [] [] [] rfl rfl rfl
